import Mathlib

/-! # dev-notes: the `uiuc::HSLAPixel` value type and the Hello World program

A shallow embedding of

* `C++/Courses/Coursera/Illinois/Image_Transform/uiuc/HSLAPixel.h` (`HSLAPixel.cpp` adds
  no code to it), and
* `C++/Courses/Coursera/Illinois/.../hello-world-given-files/main.cpp`,

followed by the properties of the two that the specification states.
-/

/-! ## The C++ `double` -/

/-- A value of the C++ type `double`: an IEEE-754 binary64 datum, given by its sign bit,
its 11-bit biased exponent and its 52-bit fraction. Two values are the same exactly when
these three parts are (this is identity of the stored datum, not the arithmetic
comparison `==`, which is not used by the sources). -/
structure Double where
  sign : Bool
  exponent : Nat
  fraction : Nat
  exponent_lt : exponent < 2048
  fraction_lt : fraction < 2 ^ 52
deriving DecidableEq

namespace Double

/-- The number a `double` stands for; `none` for the infinities and the NaNs
(exponent field all ones). Subnormals (exponent field zero) have no hidden leading one. -/
def toRat? (d : Double) : Option ℚ :=
  if d.exponent = 2047 then none
  else
    let m : ℚ :=
      if d.exponent = 0 then (d.fraction : ℚ) / 2 ^ 52 * 2 ^ (-1022 : ℤ)
      else (1 + (d.fraction : ℚ) / 2 ^ 52) * 2 ^ ((d.exponent : ℤ) - 1023)
    some (if d.sign then -m else m)

/-- The literal `210.0`: 1.640625 * 2^7. -/
def lit_210_0 : Double := ⟨false, 1030, 41 * 2 ^ 46, by decide, by decide⟩

/-- The literal `0.5`: 1.0 * 2^(-1). -/
def lit_0_5 : Double := ⟨false, 1022, 0, by decide, by decide⟩

/-- The literal `0.75`: 1.5 * 2^(-1). -/
def lit_0_75 : Double := ⟨false, 1022, 2 ^ 51, by decide, by decide⟩

/-- The literal `1.0`. -/
def lit_1_0 : Double := ⟨false, 1023, 0, by decide, by decide⟩

/-- The literal `400.0`: 1.5625 * 2^8. -/
def lit_400_0 : Double := ⟨false, 1031, 9 * 2 ^ 48, by decide, by decide⟩

/-- The value `-1.0`. -/
def lit_neg_1_0 : Double := ⟨true, 1023, 0, by decide, by decide⟩

/-- The literal `2.0`. -/
def lit_2_0 : Double := ⟨false, 1024, 0, by decide, by decide⟩

/-- The literal `5.0`: 1.25 * 2^2. -/
def lit_5_0 : Double := ⟨false, 1025, 2 ^ 50, by decide, by decide⟩

end Double

namespace uiuc

/-! ## `uiuc::HSLAPixel` (HSLAPixel.h, lines 15-21) -/

/-- The class `HSLAPixel`: four public `double` members and nothing else. -/
structure HSLAPixel where
  /-- Hue of the pixel, in degrees [0, 360) -/
  h : Double
  /-- Saturation of the pixel, [0, 1] -/
  s : Double
  /-- Luminance of the pixel, [0, 1] -/
  l : Double
  /-- Alpha (transparency) of the pixel, [0, 1] -/
  a : Double
deriving DecidableEq

namespace HSLAPixel

/-- The names of the four data members. -/
inductive Field where
  | h | s | l | a
deriving DecidableEq

/-- The member access expression `p.f` used as a value. -/
def read (p : HSLAPixel) : Field → Double
  | .h => p.h
  | .s => p.s
  | .l => p.l
  | .a => p.a

/-- The statement `p.f = v;`: the pixel `p` afterwards. -/
def assign (p : HSLAPixel) (f : Field) (v : Double) : HSLAPixel :=
  match f with
  | .h => { p with h := v }
  | .s => { p with s := v }
  | .l => { p with l := v }
  | .a => { p with a := v }

/-- A straight-line run of statements `p.f = v;`, executed first to last. -/
def assignSeq (p : HSLAPixel) (ws : List (Field × Double)) : HSLAPixel :=
  ws.foldl (fun q w => q.assign w.1 w.2) p

/-- The range the comment on `h` documents: degrees in [0, 360). -/
def hueInRange (d : Double) : Bool :=
  match d.toRat? with
  | some x => decide (0 ≤ x) && decide (x < 360)
  | none => false

/-- The range the comments on `s`, `l` and `a` document: [0, 1]. -/
def unitInRange (d : Double) : Bool :=
  match d.toRat? with
  | some x => decide (0 ≤ x) && decide (x ≤ 1)
  | none => false

end HSLAPixel

end uiuc

/-! ## The Hello World program (main.cpp, lines 14-20) -/

namespace HelloWorld

/-- The state of an output stream such as `std::cout`: the characters written to it so
far, oldest first, and the number of times it has been flushed. -/
structure ostream where
  written : List Char
  flushes : Nat
deriving DecidableEq

/-- The expression `os << s` for a string literal `s`: the stream afterwards. -/
def ostream.insert (os : ostream) (s : String) : ostream :=
  { os with written := os.written ++ s.toList }

/-- The expression `os << std::endl`: a newline character is written and the stream is
flushed. -/
def ostream.endl (os : ostream) : ostream :=
  { written := os.written ++ ['\n'], flushes := os.flushes + 1 }

/-- The function `int main()`, run on the state `cout` of the standard output stream:
the state of the stream at the return, and the value returned. -/
def main (cout : ostream) : ostream × Int :=
  -- std::cout << "Hello, world!" << std::endl;
  let cout := (cout.insert "Hello, world!").endl
  -- std::cout << "Greetings from Illinois!" << std::endl;
  let cout := (cout.insert "Greetings from Illinois!").endl
  -- return 0;
  (cout, 0)

end HelloWorld

/-! ## What the literals of the scenarios stand for -/

namespace Double

theorem toRat?_lit_210_0 : lit_210_0.toRat? = some 210 := by
  simp [toRat?, lit_210_0]; norm_num

theorem toRat?_lit_0_5 : lit_0_5.toRat? = some (1 / 2) := by
  simp [toRat?, lit_0_5]

theorem toRat?_lit_0_75 : lit_0_75.toRat? = some (3 / 4) := by
  simp [toRat?, lit_0_75]; norm_num

theorem toRat?_lit_1_0 : lit_1_0.toRat? = some 1 := by
  simp [toRat?, lit_1_0]

theorem toRat?_lit_400_0 : lit_400_0.toRat? = some 400 := by
  simp [toRat?, lit_400_0]; norm_num

theorem toRat?_lit_neg_1_0 : lit_neg_1_0.toRat? = some (-1) := by
  simp [toRat?, lit_neg_1_0]

theorem toRat?_lit_2_0 : lit_2_0.toRat? = some 2 := by
  simp [toRat?, lit_2_0]

theorem toRat?_lit_5_0 : lit_5_0.toRat? = some 5 := by
  simp [toRat?, lit_5_0]; norm_num

end Double

/-! ## Reading after assigning -/

namespace uiuc.HSLAPixel

theorem read_assign (p : HSLAPixel) (f g : Field) (v : Double) :
    (p.assign f v).read g = if g = f then v else p.read g := by
  cases f <;> cases g <;> simp [assign, read]

theorem ext_read {p q : HSLAPixel} (hpq : ∀ f, p.read f = q.read f) : p = q := by
  cases p; cases q
  have hh := hpq .h
  have hs := hpq .s
  have hl := hpq .l
  have ha := hpq .a
  simp only [read] at hh hs hl ha
  subst hh hs hl ha
  rfl

theorem assignSeq_nil (p : HSLAPixel) : p.assignSeq [] = p := rfl

theorem assignSeq_cons (p : HSLAPixel) (w : Field × Double) (ws : List (Field × Double)) :
    p.assignSeq (w :: ws) = (p.assign w.1 w.2).assignSeq ws := rfl

/-- A member that a run of assignments does not name keeps its value. -/
theorem read_assignSeq_of_not_mem (g : Field) (ws : List (Field × Double)) :
    ∀ p : HSLAPixel, g ∉ ws.map Prod.fst → (p.assignSeq ws).read g = p.read g := by
  induction ws with
  | nil => intro p _; rfl
  | cons w ws ih =>
    intro p hg
    simp only [List.map_cons, List.mem_cons, not_or] at hg
    rw [assignSeq_cons, ih _ hg.2, read_assign, if_neg hg.1]

/-- A member that a run of assignments names once holds the value assigned there. -/
theorem read_assignSeq_of_mem (g : Field) (v : Double) (ws : List (Field × Double)) :
    ∀ p : HSLAPixel, (ws.map Prod.fst).Nodup → (g, v) ∈ ws →
      (p.assignSeq ws).read g = v := by
  induction ws with
  | nil => intro p _ hmem; simp at hmem
  | cons w ws ih =>
    intro p hnd hmem
    simp only [List.map_cons, List.nodup_cons] at hnd
    rw [assignSeq_cons]
    rcases List.mem_cons.1 hmem with hw | hin
    · subst hw
      rw [read_assignSeq_of_not_mem _ _ _ hnd.1, read_assign, if_pos rfl]
    · exact ih _ hnd.2 hin

end uiuc.HSLAPixel

/-! ## The properties of `HSLAPixel` -/

namespace uiuc.HSLAPixel

open Double

/-- C1: for every four values `h`, `s`, `l`, `a`, a pixel (whatever it held before) whose
four members are assigned these values, in any order, reads back exactly `h`, `s`, `l`
and `a` from the respective members; in particular, after assigning 210.0, 0.5, 0.75
and 1.0 the members hold exactly these literals, which stand for the numbers 210, 1/2,
3/4 and 1. -/
theorem read_back_after_assignment :
    (∀ (p0 : HSLAPixel) (h s l a : Double) (ws : List (Field × Double)),
        ws.Perm [(.h, h), (.s, s), (.l, l), (.a, a)] →
        (p0.assignSeq ws).h = h ∧ (p0.assignSeq ws).s = s ∧
        (p0.assignSeq ws).l = l ∧ (p0.assignSeq ws).a = a) ∧
    (∀ p0 : HSLAPixel,
        let p := (((p0.assign .h lit_210_0).assign .s lit_0_5).assign .l lit_0_75).assign
          .a lit_1_0
        (p.h = lit_210_0 ∧ p.s = lit_0_5 ∧ p.l = lit_0_75 ∧ p.a = lit_1_0) ∧
        (p.h.toRat? = some 210 ∧ p.s.toRat? = some (1 / 2) ∧
          p.l.toRat? = some (3 / 4) ∧ p.a.toRat? = some 1)) := by
  refine ⟨?_, ?_⟩
  · intro p0 h s l a ws hws
    have hnd : (ws.map Prod.fst).Nodup :=
      (hws.map Prod.fst).nodup_iff.2 (by simp)
    have hmem : ∀ w, w ∈ [(Field.h, h), (Field.s, s), (Field.l, l), (Field.a, a)] → w ∈ ws :=
      fun w hw => hws.mem_iff.2 hw
    refine ⟨?_, ?_, ?_, ?_⟩
    · exact read_assignSeq_of_mem .h h ws p0 hnd (hmem _ (by simp))
    · exact read_assignSeq_of_mem .s s ws p0 hnd (hmem _ (by simp))
    · exact read_assignSeq_of_mem .l l ws p0 hnd (hmem _ (by simp))
    · exact read_assignSeq_of_mem .a a ws p0 hnd (hmem _ (by simp))
  · intro p0
    exact ⟨⟨rfl, rfl, rfl, rfl⟩,
      toRat?_lit_210_0, toRat?_lit_0_5, toRat?_lit_0_75, toRat?_lit_1_0⟩

/-- The round trip of C1 at the values 5.0, 2.0, -1.0, 400.0, assigned last member
first to a pixel that held the scenario values. -/
theorem read_back_after_assignment_witness :
    [(Field.a, lit_5_0), (Field.l, lit_2_0), (Field.s, lit_neg_1_0),
        (Field.h, lit_400_0)].Perm
      [(Field.h, lit_400_0), (Field.s, lit_neg_1_0), (Field.l, lit_2_0),
        (Field.a, lit_5_0)] ∧
    ((HSLAPixel.mk lit_210_0 lit_0_5 lit_0_75 lit_1_0).assignSeq
        [(Field.a, lit_5_0), (Field.l, lit_2_0), (Field.s, lit_neg_1_0),
          (Field.h, lit_400_0)]) = HSLAPixel.mk lit_400_0 lit_neg_1_0 lit_2_0 lit_5_0 :=
  ⟨by decide,
    ext_read (fun f => by
      have hrb := read_back_after_assignment.1
        (HSLAPixel.mk lit_210_0 lit_0_5 lit_0_75 lit_1_0)
        lit_400_0 lit_neg_1_0 lit_2_0 lit_5_0 _
        (by decide :
          [(Field.a, lit_5_0), (Field.l, lit_2_0), (Field.s, lit_neg_1_0),
              (Field.h, lit_400_0)].Perm
            [(Field.h, lit_400_0), (Field.s, lit_neg_1_0), (Field.l, lit_2_0),
              (Field.a, lit_5_0)])
      cases f
      · exact hrb.1
      · exact hrb.2.1
      · exact hrb.2.2.1
      · exact hrb.2.2.2)⟩

/-- C2: constructing a pixel and assigning its members cannot fail and rejects no value:
for every four values, with no condition on them, the assignments (to whatever the pixel
held) and the member-wise construction both give a pixel, and it holds exactly these
values; the values 400, -1, 2 and 5, each outside the range documented for its member,
are stored unchanged. -/
theorem assignment_never_rejects :
    (∀ (p0 : HSLAPixel) (h s l a : Double),
        ∃ p : HSLAPixel, (((p0.assign .h h).assign .s s).assign .l l).assign .a a = p ∧
          p.h = h ∧ p.s = s ∧ p.l = l ∧ p.a = a) ∧
    (∀ h s l a : Double,
        ∃ p : HSLAPixel, HSLAPixel.mk h s l a = p ∧ p.h = h ∧ p.s = s ∧ p.l = l ∧ p.a = a) ∧
    (lit_400_0.toRat? = some 400 ∧ lit_neg_1_0.toRat? = some (-1) ∧
        lit_2_0.toRat? = some 2 ∧ lit_5_0.toRat? = some 5) ∧
    (hueInRange lit_400_0 = false ∧ unitInRange lit_neg_1_0 = false ∧
        unitInRange lit_2_0 = false ∧ unitInRange lit_5_0 = false) ∧
    (∀ p0 : HSLAPixel,
        let p := (((p0.assign .h lit_400_0).assign .s lit_neg_1_0).assign .l lit_2_0).assign
          .a lit_5_0
        p.h = lit_400_0 ∧ p.s = lit_neg_1_0 ∧ p.l = lit_2_0 ∧ p.a = lit_5_0) := by
  refine ⟨?_, ?_, ?_, ?_, ?_⟩
  · intro p0 h s l a
    exact ⟨_, rfl, rfl, rfl, rfl, rfl⟩
  · intro h s l a
    exact ⟨_, rfl, rfl, rfl, rfl, rfl⟩
  · exact ⟨toRat?_lit_400_0, toRat?_lit_neg_1_0, toRat?_lit_2_0, toRat?_lit_5_0⟩
  · refine ⟨?_, ?_, ?_, ?_⟩
    · simp [hueInRange, toRat?_lit_400_0]; norm_num
    · simp [unitInRange, toRat?_lit_neg_1_0]
    · simp [unitInRange, toRat?_lit_2_0]
    · simp [unitInRange, toRat?_lit_5_0]
  · intro p0
    exact ⟨rfl, rfl, rfl, rfl⟩

/-- C4: two pixels whose four members agree are equal, and two pixels that differ in
any one of the four members are unequal: a pixel is nothing beyond the values of `h`,
`s`, `l` and `a`. -/
theorem eq_of_members_ne_of_member (p q : HSLAPixel) :
    (p.h = q.h ∧ p.s = q.s ∧ p.l = q.l ∧ p.a = q.a → p = q) ∧
    (p.h ≠ q.h ∨ p.s ≠ q.s ∨ p.l ≠ q.l ∨ p.a ≠ q.a → p ≠ q) := by
  constructor
  · rintro ⟨hh, hs, hl, ha⟩
    cases p; cases q
    simp only at hh hs hl ha
    subst hh hs hl ha
    rfl
  · intro hne hpq
    subst hpq
    rcases hne with hh | hs | hl | ha
    · exact hh rfl
    · exact hs rfl
    · exact hl rfl
    · exact ha rfl

/-- The two halves of C4 at concrete pixels: a pixel built member by member equals the
one constructed member-wise from the same values, and two pixels that differ only in
alpha (1.0 and 0.5) are unequal. -/
theorem eq_of_members_ne_of_member_witness :
    ((((HSLAPixel.mk lit_5_0 lit_5_0 lit_5_0 lit_5_0).assign .h lit_210_0).assign
          .s lit_0_5).assign .l lit_0_75).assign .a lit_1_0
        = HSLAPixel.mk lit_210_0 lit_0_5 lit_0_75 lit_1_0 ∧
    HSLAPixel.mk lit_210_0 lit_0_5 lit_0_75 lit_1_0
        ≠ HSLAPixel.mk lit_210_0 lit_0_5 lit_0_75 lit_0_5 :=
  ⟨(eq_of_members_ne_of_member _ _).1 ⟨rfl, rfl, rfl, rfl⟩,
    (eq_of_members_ne_of_member (HSLAPixel.mk lit_210_0 lit_0_5 lit_0_75 lit_1_0)
      (HSLAPixel.mk lit_210_0 lit_0_5 lit_0_75 lit_0_5)).2
      (Or.inr (Or.inr (Or.inr (by decide))))⟩

/-- C5: the four members are independent: assigning a value to any one member `f` leaves
every other member `g` of the pixel exactly as it was. -/
theorem assign_leaves_other_members (p : HSLAPixel) (f g : Field) (v : Double)
    (hgf : g ≠ f) : (p.assign f v).read g = p.read g := by
  rw [read_assign, if_neg hgf]

/-- C5 at a concrete pixel: assigning 400.0 to the hue leaves the alpha at 1.0. -/
theorem assign_leaves_other_members_witness :
    Field.a ≠ Field.h ∧
    ((HSLAPixel.mk lit_210_0 lit_0_5 lit_0_75 lit_1_0).assign .h lit_400_0).read .a
      = lit_1_0 :=
  ⟨by decide,
    assign_leaves_other_members (HSLAPixel.mk lit_210_0 lit_0_5 lit_0_75 lit_1_0)
      .h .a lit_400_0 (by decide)⟩

/-- C6: assignments compose as plain overwrites. Assigning `v` and then `w` to one member
`f` gives the pixel that assigning only `w` gives, and in it `f` holds `w` (the last
write wins) and every other member is as in `p`. Assignments of `v` to `f` and `w` to a
different member `g` give the same pixel in either order, and in it `f` holds `v`, `g`
holds `w` and every other member is as in `p`. -/
theorem assign_overwrites_and_commutes (p : HSLAPixel) (f g : Field) (v w : Double) :
    ((p.assign f v).assign f w = p.assign f w ∧
      ((p.assign f v).assign f w).read f = w ∧
      (∀ k : Field, k ≠ f → ((p.assign f v).assign f w).read k = p.read k)) ∧
    (f ≠ g →
      (p.assign f v).assign g w = (p.assign g w).assign f v ∧
      ((p.assign f v).assign g w).read f = v ∧
      ((p.assign f v).assign g w).read g = w ∧
      ((p.assign g w).assign f v).read f = v ∧
      ((p.assign g w).assign f v).read g = w ∧
      (∀ k : Field, k ≠ f → k ≠ g → ((p.assign f v).assign g w).read k = p.read k)) := by
  refine ⟨⟨?_, ?_, ?_⟩, ?_⟩
  · exact ext_read (fun k => by
      simp only [read_assign]
      by_cases hk : k = f <;> simp [hk])
  · simp [read_assign]
  · intro k hk
    simp [read_assign, hk]
  · intro hfg
    have hgf : g ≠ f := fun hgf => hfg hgf.symm
    refine ⟨?_, ?_, ?_, ?_, ?_, ?_⟩
    · exact ext_read (fun k => by
        simp only [read_assign]
        by_cases hkf : k = f
        · subst hkf
          simp [hfg]
        · simp [hkf])
    · simp [read_assign, hfg]
    · simp [read_assign]
    · simp [read_assign]
    · simp [read_assign, hgf]
    · intro k hkf hkg
      simp [read_assign, hkf, hkg]

/-- C6 at a concrete pixel. The saturation set to 2.0 and then to 0.5 gives the pixel
with saturation 0.5 and the other members untouched. Hue set to 400.0 and alpha to 5.0,
in either order, give the pixel with hue 400.0, alpha 5.0 and the saturation and
luminance untouched. -/
theorem assign_overwrites_and_commutes_witness :
    (((HSLAPixel.mk lit_210_0 lit_1_0 lit_0_75 lit_1_0).assign .s lit_2_0).assign
          .s lit_0_5
        = HSLAPixel.mk lit_210_0 lit_0_5 lit_0_75 lit_1_0 ∧
      (((HSLAPixel.mk lit_210_0 lit_1_0 lit_0_75 lit_1_0).assign .s lit_2_0).assign
          .s lit_0_5).read .s = lit_0_5) ∧
    Field.h ≠ Field.a ∧
    (((HSLAPixel.mk lit_210_0 lit_0_5 lit_0_75 lit_1_0).assign .h lit_400_0).assign
          .a lit_5_0
        = HSLAPixel.mk lit_400_0 lit_0_5 lit_0_75 lit_5_0 ∧
      ((HSLAPixel.mk lit_210_0 lit_0_5 lit_0_75 lit_1_0).assign .a lit_5_0).assign
          .h lit_400_0
        = HSLAPixel.mk lit_400_0 lit_0_5 lit_0_75 lit_5_0 ∧
      (((HSLAPixel.mk lit_210_0 lit_0_5 lit_0_75 lit_1_0).assign .h lit_400_0).assign
          .a lit_5_0).read .h = lit_400_0 ∧
      (((HSLAPixel.mk lit_210_0 lit_0_5 lit_0_75 lit_1_0).assign .h lit_400_0).assign
          .a lit_5_0).read .a = lit_5_0) :=
  have hsame := assign_overwrites_and_commutes
    (HSLAPixel.mk lit_210_0 lit_1_0 lit_0_75 lit_1_0) .s .s lit_2_0 lit_0_5
  have hcomm := (assign_overwrites_and_commutes
    (HSLAPixel.mk lit_210_0 lit_0_5 lit_0_75 lit_1_0) .h .a lit_400_0 lit_5_0).2
    (by decide)
  ⟨⟨hsame.1.1, hsame.1.2.1⟩, by decide,
    ⟨hcomm.1.trans (by decide), hcomm.1.symm.trans (by decide), hcomm.2.1, hcomm.2.2.1⟩⟩

end uiuc.HSLAPixel

/-! ## The property of the Hello World program -/

namespace HelloWorld

/-- C3: running `main` writes to the standard output exactly the text
"Hello, world!", newline, "Greetings from Illinois!", newline, after whatever the stream
held and nothing else, and returns 0; on a fresh stream the output is these two lines,
each ended by a newline, in this order. -/
theorem main_writes_two_lines_returns_zero :
    (∀ cout : ostream,
        (main cout).1.written
            = cout.written ++ "Hello, world!\nGreetings from Illinois!\n".toList ∧
          (main cout).2 = 0) ∧
    (main ⟨[], 0⟩).1.written
        = "Hello, world!".toList ++ ['\n'] ++ "Greetings from Illinois!".toList ++ ['\n'] ∧
    (main ⟨[], 0⟩).1.written.splitOn '\n'
        = ["Hello, world!".toList, "Greetings from Illinois!".toList, []] ∧
    (main ⟨[], 0⟩).1.written.count '\n' = 2 := by
  refine ⟨?_, ?_, ?_, ?_⟩
  · intro cout
    refine ⟨?_, rfl⟩
    simp only [main, ostream.insert, ostream.endl, List.append_assoc]
    rfl
  · rfl
  · decide
  · decide

end HelloWorld
